import Mathlib

/-!
Verification development for the command-execution kernel in
`kernel/register.cc` (pass registry, command-language tokenizer and
chainer, dispatcher, scoped-call wrappers, frontend and backend drivers).

The C++ code is shallowly embedded: each modelled function mirrors the
control flow of the corresponding C++ function.  Strings are processed
as `List Char` (via `String.data`) so that all definitions evaluate by
kernel reduction.  The selection stack is modelled with the most
recently pushed selection at the head of the list, so C++ `push_back` /
`pop_back` / unwinding by `size()` correspond to `cons` / `tail` /
dropping from the head.
-/

/-- An argument vector, as built by the tokenizer and consumed by the
dispatcher (`std::vector<std::string> args`). -/
abbrev Args := List String

/-- The delimiter set of `strtok_r(s, " \t\r\n", ...)` and of the
leading `strspn(s, " \t\r\n")` in `Pass::call(design, std::string)`. -/
def isBlankChar (c : Char) : Bool :=
  c == ' ' || c == '\t' || c == '\r' || c == '\n'

/-- Worker for `splitTokens`: accumulates the current token (reversed)
while scanning the character list; delimiter runs produce no empty
tokens, exactly like `strtok_r`. -/
def splitToksAux : List Char → List Char → List String
  | [], acc => if acc.isEmpty then [] else [String.mk acc.reverse]
  | c :: rest, acc =>
    if isBlankChar c then
      if acc.isEmpty then splitToksAux rest []
      else String.mk acc.reverse :: splitToksAux rest []
    else splitToksAux rest (c :: acc)

/-- The token sequence produced by the `strtok_r(s, " \t\r\n", &saveptr)`
loop of `Pass::call(design, std::string)`: maximal runs of
non-delimiter characters, in order. -/
def splitTokens (s : String) : List String :=
  splitToksAux s.data []

/-- The number of trailing `;` characters of a token: the count
`num_semikolon` computed by the `while (strsz > 0 && str[strsz-1] == ';')`
loop. -/
def trailingSemis (s : String) : Nat :=
  (s.data.reverse.takeWhile (fun c => c == ';')).length

/-- The token with its trailing semicolons stripped:
`str.substr(0, strsz)` after the stripping loop. -/
def stripSemisRem (s : String) : String :=
  String.mk (s.data.take (s.data.length - trailingSemis s))

/-- `args[0][0] == '#'`: the first token begins with `#` (false for an
empty token, as `std::string::operator[]` at `size()` reads the null
character). -/
def headIsHash (s : String) : Bool :=
  match s.data with
  | '#' :: _ => true
  | _ => false

/-- The dispatch trace of the vector form `Pass::call(design, args)`
viewed purely: it dispatches `args` as one command unless `args` is
empty or `args[0]` begins with `#` (in which case it is a no-op). -/
def dispatchTrace (args : Args) : List Args :=
  match args with
  | [] => []
  | a :: _ => if headIsHash a then [] else [args]

/-- The token loop of `Pass::call(design, std::string)`, as the list of
argument vectors it dispatches, in dispatch order.  `cleanTrace` and
`purgeTrace` are the dispatch traces of the recursive string-form calls
`call(design, "clean")` and `call(design, "clean -purge")` made when a
token carries exactly two, respectively three, trailing semicolons
(these traces do not depend on the surrounding parse state, so they are
passed in precomputed). -/
def callToksAux (cleanTrace purgeTrace : List Args) : List String → Args → List Args
  | [], args => dispatchTrace args
  | t :: rest, args =>
    if t = "#" then dispatchTrace args
    else
      let n := trailingSemis t
      if n > 0 then
        let rem := stripSemisRem t
        let args2 := if rem = "" then args else args ++ [rem]
        dispatchTrace args2
          ++ (if n = 2 then cleanTrace else if n = 3 then purgeTrace else [])
          ++ callToksAux cleanTrace purgeTrace rest []
      else
        callToksAux cleanTrace purgeTrace rest (args ++ [t])

/-- The string form `Pass::call(design, std::string command)`, viewed as
the list of argument vectors it dispatches through the vector form, in
order.  `fuel` bounds the recursion depth of the string-form
self-calls; depth 2 suffices because the only self-calls are on the
fixed command strings `"clean"` and `"clean -purge"`, whose tokens
carry no trailing semicolons.  A leading-`!` shell-passthrough line
dispatches no command, so its trace is empty. -/
def callStringFuel : Nat → String → List Args
  | 0, _ => []
  | fuel + 1, command =>
    match command.data.dropWhile (fun c => isBlankChar c) with
    | [] => []
    | c :: _ =>
      if c = '#' then []
      else if c = '!' then []
      else callToksAux (callStringFuel fuel "clean")
        (callStringFuel fuel "clean -purge") (splitTokens command) []

/-- The dispatch trace of `Pass::call(design, std::string)`. -/
def callTrace (command : String) : List Args :=
  callStringFuel 2 command

/-- Modelled from the spec: `RTLIL::Selection` is an external
collaborator (spec §6), an opaque value "constructed either
empty-with-polarity or via a `select(module)` mutator"; the kernel only
pushes and pops whole values.  `RTLIL::Selection(false)` is the
empty-with-polarity constructor, and `select` marks one module
selected. -/
structure Selection where
  full_selection : Bool
  selected_modules : List String
deriving DecidableEq, Repr

/-- `RTLIL::Selection::select(module)`: mark the module selected. -/
def Selection.select (s : Selection) (moduleName : String) : Selection :=
  { s with selected_modules := s.selected_modules ++ [moduleName] }

/-- The sliver of `RTLIL::Module` the kernel uses: its name. -/
structure RtlModule where
  name : String
deriving DecidableEq, Repr

/-- The sliver of `RTLIL::Design` the kernel mutates: the selection
stack (head = most recently pushed, so C++ `push_back` / `pop_back` are
`cons` / `tail`), the active-module override, and an instrumentation
counter recording how often the collaborator method `design->check()`
has been invoked. -/
structure Design where
  selection_stack : List Selection
  selected_active_module : String
  check_count : Nat
deriving DecidableEq, Repr

/-- A registered command descriptor: `Pass::pass_name`,
`Pass::short_help` and `Pass::call_counter`. -/
structure PassDesc where
  pass_name : String
  short_help : String
  call_counter : Nat
deriving DecidableEq, Repr

/-- `REGISTER_INTERN::pass_register`, as an association list keyed by
pass name (first match wins, mirroring unique-key `std::map`). -/
abbrev Registry := List (String × PassDesc)

/-- Unique-key map lookup over an association list. -/
def assocLookup {α : Type} : List (String × α) → String → Option α
  | [], _ => none
  | (k, v) :: rest, n => if k = n then some v else assocLookup rest n

/-- `Pass::run_register()`: `log_assert(pass_register.count(pass_name) == 0)`
followed by the map insertion.  `none` models the fatal assertion
failure on a duplicate name. -/
def run_register (reg : Registry) (d : PassDesc) : Option Registry :=
  if (assocLookup reg d.pass_name).isSome then none
  else some (reg ++ [(d.pass_name, d)])

/-- The drain loop of `Pass::init_register()`: register each queued
descriptor in queue order; a fatal registration aborts. -/
def initRegisterAux : Registry → List PassDesc → Option Registry
  | reg, [] => some reg
  | reg, d :: q =>
    match run_register reg d with
    | none => none
    | some reg2 => initRegisterAux reg2 q

/-- `Pass::Pass` prepends each constructed descriptor to the
`first_queued_pass` chain, so constructing `ds` in order leaves the
queue holding `ds.reverse`; `Pass::init_register()` then drains that
queue into an initially empty registry. -/
def init_register (ds : List PassDesc) : Option Registry :=
  initRegisterAux [] ds.reverse

/-- Whether the virtual `execute(args, design)` of a pass returned
normally or raised a command error (`log_cmd_error` / `cmd_error`). -/
inductive ExecOutcome
  | ok
  | cmdError
deriving DecidableEq, Repr

/-- The behaviour of the registered passes' virtual `execute`: given
the command name, the argument vector and the design, produce the
mutated design and whether execution returned normally.  Quantifying
theorems over this function models arbitrary command implementations. -/
abbrev ExecBehavior := String → Args → Design → Design × ExecOutcome

/-- The state a dispatch acts on: the pass registry plus the design. -/
structure KState where
  reg : Registry
  design : Design
deriving DecidableEq, Repr

/-- How a dispatch through the vector form `Pass::call` ended:
`noop` (empty vector or leading-`#` first token), `noSuchCommand`
(lookup failed, `log_cmd_error` raised), `execError` (the command's
`execute` raised a command error, which propagates), or `done`
(normal return: stack unwound and `design->check()` invoked). -/
inductive CallOutcome
  | noop
  | noSuchCommand
  | execError
  | done
deriving DecidableEq, Repr

/-- The defensive unwind `while (design->selection_stack.size() > orig_sel_stack_pos)
design->selection_stack.pop_back();` (stack head = most recent). -/
def unwindTo : List Selection → Nat → List Selection
  | [], _ => []
  | s :: rest, orig =>
    if orig < (s :: rest).length then unwindTo rest orig else s :: rest

/-- `pass_register[args[0]]->call_counter++`: bump the invocation
counter of the named descriptor. -/
def regBump : Registry → String → Registry
  | [], _ => []
  | (k, d) :: rest, n =>
    if k = n then (k, { d with call_counter := d.call_counter + 1 }) :: rest
    else (k, d) :: regBump rest n

/-- The vector form `Pass::call(design, args)`: no-op on an empty
vector or a leading-`#` first token; unresolved names raise the
user-facing "No such command" error; otherwise bump the counter, run
`execute`, and on normal return unwind the selection stack to the
recorded depth and invoke `design->check()`.  A command error raised
inside `execute` propagates at once: neither the unwind loop nor the
check is reached. -/
def callVector (exec : ExecBehavior) (st : KState) (args : Args) : KState × CallOutcome :=
  match args with
  | [] => (st, .noop)
  | a :: _ =>
    if headIsHash a then (st, .noop)
    else
      match assocLookup st.reg a with
      | none => (st, .noSuchCommand)
      | some _ =>
        let origDepth := st.design.selection_stack.length
        let reg2 := regBump st.reg a
        let r := exec a args st.design
        match r.2 with
        | .cmdError => ({ reg := reg2, design := r.1 }, .execError)
        | .ok =>
          let d3 := { r.1 with selection_stack := unwindTo r.1.selection_stack origDepth }
          ({ reg := reg2,
             design := { d3 with check_count := d3.check_count + 1 } }, .done)

/-- Run the dispatches of a string-form call in order; the first
command error aborts the remainder of the line (the exception
propagates out of `Pass::call`). -/
def runTrace (exec : ExecBehavior) : KState → List Args → KState × CallOutcome
  | st, [] => (st, .done)
  | st, a :: rest =>
    let r := callVector exec st a
    match r.2 with
    | .noSuchCommand => (r.1, .noSuchCommand)
    | .execError => (r.1, .execError)
    | _ => runTrace exec r.1 rest

/-- The string form `Pass::call(design, command)` acting on the state:
tokenization is state-independent, so it dispatches exactly the
vectors of `callTrace command`, in order. -/
def callStringState (exec : ExecBehavior) (st : KState) (command : String) : KState × CallOutcome :=
  runTrace exec st (callTrace command)

/-- The selection pushed by `Pass::call_on_module`:
`RTLIL::Selection(false)` then `.select(module)`. -/
def moduleSelection (m : RtlModule) : Selection :=
  Selection.select { full_selection := false, selected_modules := [] } m.name

/-- The state `Pass::call_on_module` hands to its inner `Pass::call`:
active module set to the target module's name and a selection
containing exactly that module pushed on the selection stack. -/
def callOnModuleEntry (st : KState) (m : RtlModule) : KState :=
  { st with design := { st.design with
      selected_active_module := m.name,
      selection_stack := moduleSelection m :: st.design.selection_stack } }

/-- `Pass::call_on_module(design, module, command)`: save the active
module name, set it to the module's name, push a selection of exactly
that module, dispatch the command string, then pop the selection and
restore the saved name.  A command error from the inner call
propagates before the pop/restore runs (the known exception-safety gap
of the original structure). -/
def callOnModule (exec : ExecBehavior) (st : KState) (m : RtlModule) (command : String) :
    KState × CallOutcome :=
  let backup := st.design.selected_active_module
  let r := callStringState exec (callOnModuleEntry st m) command
  match r.2 with
  | .done =>
    ({ r.1 with design := { r.1.design with
        selection_stack := r.1.design.selection_stack.tail,
        selected_active_module := backup } }, .done)
  | oc => (r.1, oc)

/-- An `ExecBehavior` whose commands only push selection frames (and
pop frames they themselves pushed): the stack they leave behind is the
entry stack with zero or more new frames on top.  This is the
well-behavedness envelope the dispatcher's defensive unwind is written
for — it cannot restore frames a command popped from under it. -/
def PushOnlyExec (exec : ExecBehavior) : Prop :=
  ∀ n a d, ∃ extra, ((exec n a d).1).selection_stack = extra ++ d.selection_stack

/-- `buffer.find_first_not_of(" \t\r\n")` on a line, as an index;
`none` models `std::string::npos` (an all-blank line), on which the
subsequent `substr(indent, ...)` faults — the capture loop has no
defined result there. -/
def findFirstNotBlank : List Char → Option Nat
  | [] => none
  | c :: rest =>
    if isBlankChar c then (findFirstNotBlank rest).map (· + 1) else some 0

/-- The end-marker test of the here-document loop in
`Frontend::extra_args`:
`buffer.substr(indent, eot_marker.size()) == eot_marker`, i.e. the
line, after its leading blanks, begins with the marker. -/
def hereDocTerminates (marker : String) (line : String) : Option Bool :=
  match findFirstNotBlank line.data with
  | none => none
  | some i => some (decide (((line.data.drop i).take marker.data.length) = marker.data))

/-- The here-document capture loop of `Frontend::extra_args`, over the
remaining lines of the enclosing script: accumulate each line verbatim
into `last_here_document` until the first line that passes the
end-marker test (that line excluded); running out of lines is the
fatal "Unexpected end of file in here document" error (`none`). -/
def hereDocCapture (marker : String) : List String → Option String
  | [] => none
  | line :: rest =>
    match hereDocTerminates marker line with
    | none => none
    | some true => some ""
    | some false => (hereDocCapture marker rest).map (fun t => line ++ t)

/-- A script line's content for the spec's stated stopping rule: the
line with leading blanks and the trailing line terminator removed. -/
def lineContent (line : String) : List Char :=
  ((line.data.dropWhile (fun c => isBlankChar c)).reverse.dropWhile
    (fun c => c == '\n' || c == '\r')).reverse

/-- The here-document capture as the spec's words state it (for
refinement comparison with `hereDocCapture`): stop at the first line
whose content, once leading blanks are stripped, EQUALS the end
marker. -/
def hereDocCaptureSpec (marker : String) : List String → Option String
  | [] => none
  | line :: rest =>
    if lineContent line = marker.data then some ""
    else (hereDocCaptureSpec marker rest).map (fun t => line ++ t)

/-- `name.rfind("=", 0) == 0`: the name begins with `=`. -/
def nameStartsEq (name : String) : Bool :=
  match name.data with
  | '=' :: _ => true
  | _ => false

/-- `name.substr(1)`. -/
def dropFirst (name : String) : String :=
  String.mk (name.data.drop 1)

/-- A frontend descriptor: the shared dispatch name (`pass_name`, from
the `Pass` base constructor) and the frontend-format name. -/
structure FrontendDesc where
  pass_name : String
  frontend_name : String
  short_help : String
  call_counter : Nat
deriving DecidableEq, Repr

/-- `Frontend::Frontend(name, short_help)`: the base `Pass` gets
`name.substr(1)` when the name begins with `=`, else `"read_" + name`;
`frontend_name` likewise drops a leading `=`, else is `name` itself. -/
def mkFrontend (name shortHelp : String) : FrontendDesc :=
  { pass_name := if nameStartsEq name then dropFirst name else "read_" ++ name,
    frontend_name := if nameStartsEq name then dropFirst name else name,
    short_help := shortHelp,
    call_counter := 0 }

/-- A backend descriptor, symmetric to `FrontendDesc`. -/
structure BackendDesc where
  pass_name : String
  backend_name : String
  short_help : String
  call_counter : Nat
deriving DecidableEq, Repr

/-- `Backend::Backend(name, short_help)`: as for frontends with the
derived prefix `"write_"`. -/
def mkBackend (name shortHelp : String) : BackendDesc :=
  { pass_name := if nameStartsEq name then dropFirst name else "write_" ++ name,
    backend_name := if nameStartsEq name then dropFirst name else name,
    short_help := shortHelp,
    call_counter := 0 }

/-- `Frontend::run_register()`: assert-free-then-insert into the shared
dispatch namespace under `pass_name` AND into the frontend-format
namespace under `frontend_name`; either duplicate is the fatal
`log_assert`. -/
def frontendRunRegister (d : FrontendDesc)
    (pr fr : List (String × FrontendDesc)) :
    Option (List (String × FrontendDesc) × List (String × FrontendDesc)) :=
  if (assocLookup pr d.pass_name).isSome then none
  else if (assocLookup fr d.frontend_name).isSome then none
  else some (pr ++ [(d.pass_name, d)], fr ++ [(d.frontend_name, d)])

/-- `Backend::run_register()`, symmetric to `frontendRunRegister`. -/
def backendRunRegister (d : BackendDesc)
    (pr br : List (String × BackendDesc)) :
    Option (List (String × BackendDesc) × List (String × BackendDesc)) :=
  if (assocLookup pr d.pass_name).isSome then none
  else if (assocLookup br d.backend_name).isSome then none
  else some (pr ++ [(d.pass_name, d)], br ++ [(d.backend_name, d)])

/-- The driver loop of `Frontend::execute(args, design)`, tracking the
object's `call_counter`: each iteration clears the pending
continuation, increments the counter, and runs the format-specific
`execute(f, filename, args, design)` — modelled by `step`, which
returns the `next_args` that call leaves behind; the loop repeats on
the continuation while it is non-empty.  `fuel` bounds the number of
iterations (`none` = the loop did not finish within `fuel`). -/
def frontendExecuteCounter (step : Args → Args) : Nat → Nat → Args → Option Nat
  | 0, _, _ => none
  | fuel + 1, counter, args =>
    let counter2 := counter + 1
    let nextArgs := step args
    if nextArgs.isEmpty then some counter2
    else frontendExecuteCounter step fuel counter2 nextArgs

/-- The number of continuation rounds the driver loop performs: the
count of iterations whose format-specific call leaves a non-empty
`next_args` behind. -/
def contRounds (step : Args → Args) : Nat → Args → Option Nat
  | 0, _ => none
  | fuel + 1, args =>
    let nextArgs := step args
    if nextArgs.isEmpty then some 0
    else (contRounds step fuel nextArgs).map (· + 1)

/-- A frontend dispatched once through the vector form `Pass::call`:
the dispatcher increments the descriptor's counter once
(`pass_register[args[0]]->call_counter++`) and then runs
`Frontend::execute(args, design)`, whose driver loop increments the
same counter once more per iteration. -/
def dispatchFrontendCounter (step : Args → Args) (fuel counter : Nat) (args : Args) :
    Option Nat :=
  frontendExecuteCounter step fuel (counter + 1) args

/-- `arg.substr(0, 1) == "-"`. -/
def startsDash (arg : String) : Bool :=
  match arg.data with
  | '-' :: _ => true
  | _ => false

/-- A backend's destination stream: `stdout` or a file opened from a
path. -/
inductive OutStream
  | stdoutS : OutStream
  | fileS : String → OutStream
deriving DecidableEq, Repr

/-- Whether the stream is the process's standard output
(`f == stdout`). -/
def OutStream.isStdout : OutStream → Bool
  | .stdoutS => true
  | .fileS _ => false

/-- Result of destination resolution: the stream plus the recorded
filename, or a raised command error (`cmd_error` / `log_cmd_error`). -/
inductive BackendResolve
  | ok : OutStream → String → BackendResolve
  | err : BackendResolve
deriving DecidableEq, Repr

/-- The destination loop of `Backend::extra_args` over the remaining
argument tokens, carried state being the stream resolved so far
(`f`, initially `NULL`) and the recorded `filename`.  `openable` says
which paths `fopen(path, "w")` succeeds on.  A dash-led token other
than exactly `-` is a syntax error; a second destination is the
"Extra filename argument" error; `-` selects stdout recorded as
`"<stdout>"`; any other token is opened for writing.  After the loop
(with no direct file pointer supplied), a still-unresolved stream
defaults to stdout recorded as `"<stdout>"`. -/
def backendExtraArgsLoop (openable : String → Bool) :
    List String → Option OutStream → String → BackendResolve
  | [], f, fn =>
    match f with
    | none => .ok .stdoutS "<stdout>"
    | some s => .ok s fn
  | arg :: rest, f, _fn =>
    if startsDash arg && decide (arg ≠ "-") then .err
    else if f.isSome then .err
    else if arg = "-" then backendExtraArgsLoop openable rest (some .stdoutS) "<stdout>"
    else if openable arg then backendExtraArgsLoop openable rest (some (.fileS arg)) arg
    else .err

/-- `Backend::execute(args, design)` around a format-specific call that
resolves its destination through `Backend::extra_args` on the
remaining tokens `destArgs`: on normal return the stream is closed iff
it is not `stdout` (`if (f != stdout) fclose(f);`).  Returns the
resolved stream, the recorded filename, and whether the stream was
closed; `none` when resolution raised a command error (in which case
the close in `Backend::execute` is never reached). -/
def backendExecuteCloses (openable : String → Bool) (destArgs : List String) :
    Option (OutStream × String × Bool) :=
  match backendExtraArgsLoop openable destArgs none "" with
  | .err => none
  | .ok s fn => some (s, fn, !s.isStdout)

/-- A token consisting of `k` semicolons only. -/
def semisToken (k : Nat) : String :=
  String.mk (List.replicate k ';')

example : splitTokens "foo bar;; baz" = ["foo", "bar;;", "baz"] := by decide
example : callTrace "foo bar;; baz" = [["foo", "bar"], ["clean"], ["baz"]] := by decide
example : callTrace "foo;;;" = [["foo"], ["clean", "-purge"]] := by decide
example : callTrace "foo ;;" = [["foo"], ["clean"]] := by decide
example : callTrace "# comment" = [] := by decide
example : callTrace "" = [] := by decide

/-! Helper lemmas. -/

theorem takeWhile_semis (k : Nat) :
    (List.replicate k ';').takeWhile (fun c => c == ';') = List.replicate k ';' := by
  induction k with
  | zero => rfl
  | succ k ih => simp [List.replicate_succ, List.takeWhile_cons, ih]

theorem trailingSemis_semisToken (k : Nat) : trailingSemis (semisToken k) = k := by
  simp [trailingSemis, semisToken, List.reverse_replicate, takeWhile_semis]

theorem stripSemisRem_semisToken (k : Nat) : stripSemisRem (semisToken k) = "" := by
  unfold stripSemisRem
  rw [trailingSemis_semisToken]
  simp [semisToken]

theorem semisToken_ne_hash (k : Nat) (hk : 0 < k) : semisToken k ≠ "#" := by
  intro h
  have hdata : (semisToken k).data = "#".data := by rw [h]
  rcases k with _ | k
  · omega
  · simp [semisToken, List.replicate_succ] at hdata

/-- C1: the string-form tokenizer dispatches semicolon-separated
segments left to right; a token with a non-empty remainder and `n`
trailing semicolons flushes the pending argument vector extended by
the remainder, then for `n = 2` dispatches the `clean` trace and for
`n = 3` the `clean -purge` trace, before continuing with the remaining
tokens; in particular `"foo bar;; baz"` dispatches `["foo","bar"]`,
then `["clean"]`, then `["baz"]`, and `"foo;;;"` dispatches `["foo"]`
then `["clean","-purge"]`. -/
theorem C1_tokenizer_chaining (ct pt : List Args) (t : String) (toks : List String)
    (args : Args) (hn : 0 < trailingSemis t) (ht : t ≠ "#") (hr : stripSemisRem t ≠ "") :
    callToksAux ct pt (t :: toks) args
      = dispatchTrace (args ++ [stripSemisRem t])
        ++ (if trailingSemis t = 2 then ct else if trailingSemis t = 3 then pt else [])
        ++ callToksAux ct pt toks []
    ∧ callTrace "foo bar;; baz" = [["foo", "bar"], ["clean"], ["baz"]]
    ∧ callTrace "foo;;;" = [["foo"], ["clean", "-purge"]] := by
  refine ⟨?_, by decide, by decide⟩
  simp [callToksAux, ht, hn, hr]

/-- C1 witness: the chaining step at the concrete token `"bar;;"`. -/
theorem C1_tokenizer_chaining_witness :
    0 < trailingSemis "bar;;" ∧ "bar;;" ≠ "#" ∧ stripSemisRem "bar;;" ≠ ""
    ∧ callToksAux [["clean"]] [["clean", "-purge"]] ["bar;;", "baz"] ["foo"]
      = dispatchTrace (["foo"] ++ [stripSemisRem "bar;;"])
        ++ (if trailingSemis "bar;;" = 2 then [["clean"]]
            else if trailingSemis "bar;;" = 3 then [["clean", "-purge"]] else [])
        ++ callToksAux [["clean"]] [["clean", "-purge"]] ["baz"] [] :=
  ⟨by decide, by decide, by decide,
    (C1_tokenizer_chaining [["clean"]] [["clean", "-purge"]] "bar;;" ["baz"] ["foo"]
      (by decide) (by decide) (by decide)).1⟩

/-- C2 counterexample: the claim says the line `"foo ;;"` dispatches
only `["foo"]`, but the code additionally dispatches the fixed command
`clean`, since the extra dispatch depends only on the semicolon count,
not on the remainder being non-empty. -/
theorem C2_semicolon_only_counterexample :
    callTrace "foo ;;" = [["foo"], ["clean"]]
    ∧ callTrace "foo ;;" ≠ [["foo"]] := by decide

/-- C2 amended: a token consisting solely of `k ≥ 1` semicolons
flushes the pending argument vector with no remainder appended, and
the implicit `clean` (for `k = 2`) or `clean -purge` (for `k = 3`)
dispatch still occurs even though the remainder is empty; only for
other values of `k` is the flush the sole effect. -/
theorem C2_semicolon_only_amended (ct pt : List Args) (k : Nat) (toks : List String)
    (args : Args) (hk : 0 < k) :
    callToksAux ct pt (semisToken k :: toks) args
      = dispatchTrace args
        ++ (if k = 2 then ct else if k = 3 then pt else [])
        ++ callToksAux ct pt toks []
    ∧ callTrace "foo ;;" = [["foo"], ["clean"]] := by
  refine ⟨?_, by decide⟩
  have h1 := semisToken_ne_hash k hk
  simp [callToksAux, h1, trailingSemis_semisToken, stripSemisRem_semisToken, hk]

/-- C2 witness: the amended step at the concrete token `";;"`. -/
theorem C2_semicolon_only_amended_witness :
    (0 : Nat) < 2
    ∧ callToksAux [["clean"]] [["clean", "-purge"]] (semisToken 2 :: []) ["foo"]
      = dispatchTrace ["foo"]
        ++ (if 2 = 2 then [["clean"]] else if 2 = 3 then [["clean", "-purge"]] else [])
        ++ callToksAux [["clean"]] [["clean", "-purge"]] [] [] :=
  ⟨by decide,
    (C2_semicolon_only_amended [["clean"]] [["clean", "-purge"]] 2 [] ["foo"] (by decide)).1⟩

/-- The here-document capture accumulates every line before the first
terminating line verbatim, and excludes the terminating line. -/
theorem hereDoc_capture_general (marker m : String) (rest : List String)
    (hm : hereDocTerminates marker m = some true) :
    ∀ pre : List String, (∀ line ∈ pre, hereDocTerminates marker line = some false) →
    hereDocCapture marker (pre ++ m :: rest)
      = some (pre.foldr (fun line t => line ++ t) "") := by
  intro pre
  induction pre with
  | nil => intro _; simp [hereDocCapture, hm]
  | cons l pre ih =>
    intro hpre
    have hl : hereDocTerminates marker l = some false := hpre l (by simp)
    have hrec := ih (fun line hline => hpre line (by simp [hline]))
    simp [hereDocCapture, hl, hrec]

/-- C3 counterexample: the claim's stopping rule ("content, once
leading blanks are stripped, EQUALS the end marker") disagrees with
the code, whose test `buffer.substr(indent, eot_marker.size()) ==
eot_marker` is a prefix match: with marker `EOT` and lines
`"a\n"`, `"EOTX\n"`, `"EOT\n"`, the code stops already at `"EOTX\n"`
and captures `"a\n"`, while the claim's rule would capture
`"a\nEOTX\n"`. -/
theorem C3_heredoc_counterexample :
    hereDocCapture "EOT" ["a\n", "EOTX\n", "EOT\n"] = some "a\n"
    ∧ hereDocCaptureSpec "EOT" ["a\n", "EOTX\n", "EOT\n"] = some "a\nEOTX\n"
    ∧ ("a\n" : String) ≠ "a\nEOTX\n" := by decide

/-- C3 amended: the capture accumulates script lines verbatim and
stops at the first line whose content, once leading blanks are
stripped, BEGINS WITH the end marker, that line excluded; with marker
`EOT` and lines `"a\n"`, `"b\n"`, `"EOT\n"` the captured stream
content is exactly `"a\nb\n"`. -/
theorem C3_heredoc_amended (marker m : String) (pre rest : List String)
    (hpre : ∀ line ∈ pre, hereDocTerminates marker line = some false)
    (hm : hereDocTerminates marker m = some true) :
    hereDocCapture marker (pre ++ m :: rest)
      = some (pre.foldr (fun line t => line ++ t) "")
    ∧ hereDocCapture "EOT" ["a\n", "b\n", "EOT\n"] = some "a\nb\n" :=
  ⟨hereDoc_capture_general marker m rest hm pre hpre, by decide⟩

/-- C3 witness: the amended capture at the claim's concrete script. -/
theorem C3_heredoc_amended_witness :
    (∀ line ∈ ["a\n", "b\n"], hereDocTerminates "EOT" line = some false)
    ∧ hereDocTerminates "EOT" "EOT\n" = some true
    ∧ hereDocCapture "EOT" (["a\n", "b\n"] ++ "EOT\n" :: [])
      = some ((["a\n", "b\n"]).foldr (fun line t => line ++ t) "") :=
  ⟨by decide, by decide,
    (C3_heredoc_amended "EOT" "EOT\n" ["a\n", "b\n"] [] (by decide) (by decide)).1⟩

theorem unwindTo_self (l : List Selection) : unwindTo l l.length = l := by
  cases l with
  | nil => rfl
  | cons s rest => simp [unwindTo]

theorem unwindTo_append (extra l : List Selection) : unwindTo (extra ++ l) l.length = l := by
  induction extra with
  | nil => simpa using unwindTo_self l
  | cons e extra ih =>
    have hlt : l.length < ((e :: extra) ++ l).length := by simp; omega
    rw [List.cons_append, unwindTo, if_pos (by simpa using hlt)]
    exact ih

theorem callVector_nil (exec : ExecBehavior) (st : KState) :
    callVector exec st [] = (st, CallOutcome.noop) := rfl

theorem callVector_hash (exec : ExecBehavior) (st : KState) (a : String) (rest : Args)
    (hh : headIsHash a = true) :
    callVector exec st (a :: rest) = (st, CallOutcome.noop) := by
  simp [callVector, hh]

theorem callVector_noSuch (exec : ExecBehavior) (st : KState) (a : String) (rest : Args)
    (hh : headIsHash a = false) (hl : assocLookup st.reg a = none) :
    callVector exec st (a :: rest) = (st, CallOutcome.noSuchCommand) := by
  simp [callVector, hh, hl]

theorem callVector_execError (exec : ExecBehavior) (st : KState) (a : String) (rest : Args)
    (pd : PassDesc) (d2 : Design)
    (hh : headIsHash a = false) (hl : assocLookup st.reg a = some pd)
    (he : exec a (a :: rest) st.design = (d2, ExecOutcome.cmdError)) :
    callVector exec st (a :: rest)
      = ({ reg := regBump st.reg a, design := d2 }, CallOutcome.execError) := by
  simp [callVector, hh, hl, he]

theorem callVector_ok (exec : ExecBehavior) (st : KState) (a : String) (rest : Args)
    (pd : PassDesc) (d2 : Design)
    (hh : headIsHash a = false) (hl : assocLookup st.reg a = some pd)
    (he : exec a (a :: rest) st.design = (d2, ExecOutcome.ok)) :
    callVector exec st (a :: rest)
      = ({ reg := regBump st.reg a,
           design := { selection_stack :=
                         unwindTo d2.selection_stack st.design.selection_stack.length,
                       selected_active_module := d2.selected_active_module,
                       check_count := d2.check_count + 1 } }, CallOutcome.done) := by
  simp [callVector, hh, hl, he]

/-- If a dispatch through the vector form returned normally and the
command's execute only pushed frames, the whole selection stack (not
just its depth) is restored. -/
theorem callVector_done_stack (exec : ExecBehavior) (hp : PushOnlyExec exec)
    (st : KState) (args : Args)
    (hd : (callVector exec st args).2 = CallOutcome.done) :
    (callVector exec st args).1.design.selection_stack = st.design.selection_stack := by
  cases args with
  | nil => rw [callVector_nil] at hd; cases hd
  | cons a rest =>
    cases hh : headIsHash a with
    | true => rw [callVector_hash exec st a rest hh] at hd; cases hd
    | false =>
      cases hl : assocLookup st.reg a with
      | none => rw [callVector_noSuch exec st a rest hh hl] at hd; cases hd
      | some pd =>
        rcases he : exec a (a :: rest) st.design with ⟨d2, oc⟩
        cases oc with
        | cmdError =>
          rw [callVector_execError exec st a rest pd d2 hh hl he] at hd; cases hd
        | ok =>
          obtain ⟨extra, hextra⟩ := hp a (a :: rest) st.design
          rw [he] at hextra
          simp only at hextra
          rw [callVector_ok exec st a rest pd d2 hh hl he]
          simp only
          rw [hextra, unwindTo_append]

/-- On a `noop` outcome the state is untouched. -/
theorem callVector_noop_state (exec : ExecBehavior) (st : KState) (args : Args)
    (hd : (callVector exec st args).2 = CallOutcome.noop) :
    (callVector exec st args).1 = st := by
  cases args with
  | nil => rfl
  | cons a rest =>
    cases hh : headIsHash a with
    | true => rw [callVector_hash exec st a rest hh]
    | false =>
      cases hl : assocLookup st.reg a with
      | none => rw [callVector_noSuch exec st a rest hh hl] at hd; cases hd
      | some pd =>
        rcases he : exec a (a :: rest) st.design with ⟨d2, oc⟩
        cases oc with
        | cmdError => rw [callVector_execError exec st a rest pd d2 hh hl he] at hd; cases hd
        | ok => rw [callVector_ok exec st a rest pd d2 hh hl he] at hd; cases hd

/-- A line of dispatches that runs to completion leaves the selection
stack exactly as it found it, provided every command only pushes
frames. -/
theorem runTrace_done_stack (exec : ExecBehavior) (hp : PushOnlyExec exec) :
    ∀ (tr : List Args) (st : KState), (runTrace exec st tr).2 = CallOutcome.done →
    (runTrace exec st tr).1.design.selection_stack = st.design.selection_stack := by
  intro tr
  induction tr with
  | nil => intro st _; rfl
  | cons a rest ih =>
    intro st h
    rcases hoc : (callVector exec st a).2 with _ | _ | _ | _
    · have hfix := callVector_noop_state exec st a hoc
      have hstep : runTrace exec st (a :: rest) = runTrace exec (callVector exec st a).1 rest := by
        rw [runTrace, hoc]
      rw [hstep] at h ⊢
      rw [ih (callVector exec st a).1 h, hfix]
    · have hstep : runTrace exec st (a :: rest)
          = ((callVector exec st a).1, CallOutcome.noSuchCommand) := by
        rw [runTrace, hoc]
      rw [hstep] at h; cases h
    · have hstep : runTrace exec st (a :: rest)
          = ((callVector exec st a).1, CallOutcome.execError) := by
        rw [runTrace, hoc]
      rw [hstep] at h; cases h
    · have hstack := callVector_done_stack exec hp st a hoc
      have hstep : runTrace exec st (a :: rest) = runTrace exec (callVector exec st a).1 rest := by
        rw [runTrace, hoc]
      rw [hstep] at h ⊢
      rw [ih (callVector exec st a).1 h, hstack]

/-- Concrete fixtures shared by witnesses and counterexamples. -/
def design0 : Design :=
  { selection_stack := [], selected_active_module := "", check_count := 0 }

def sel0 : Selection := { full_selection := false, selected_modules := [] }

def design1 : Design :=
  { selection_stack := [sel0], selected_active_module := "top", check_count := 0 }

def pdFoo : PassDesc := { pass_name := "foo", short_help := "h", call_counter := 0 }

def pdBar : PassDesc := { pass_name := "bar", short_help := "g", call_counter := 0 }

def pdFooDup : PassDesc := { pass_name := "foo", short_help := "dup", call_counter := 0 }

def st0 : KState := { reg := [("foo", pdFoo)], design := design0 }

def stEmpty : KState := { reg := [], design := design0 }

/-- A command implementation that returns normally without touching
the design. -/
def execOk : ExecBehavior := fun _ _ d => (d, ExecOutcome.ok)

/-- A command implementation that pushes one selection frame and
returns normally. -/
def execPush : ExecBehavior := fun _ _ d =>
  ({ d with selection_stack := sel0 :: d.selection_stack }, ExecOutcome.ok)

/-- A command implementation that raises a command error without
touching the design. -/
def execFail : ExecBehavior := fun _ _ d => (d, ExecOutcome.cmdError)

/-- C4: for every top-level dispatch through the vector form that
resolves and whose execute returns normally, the selection-stack depth
immediately after dispatch equals the depth recorded before invoking
execute, for every command behaviour that pushes frames (however
many). -/
theorem C4_dispatch_restores_depth (exec : ExecBehavior) (st : KState) (args : Args)
    (hp : PushOnlyExec exec)
    (hd : (callVector exec st args).2 = CallOutcome.done) :
    (callVector exec st args).1.design.selection_stack.length
      = st.design.selection_stack.length := by
  rw [callVector_done_stack exec hp st args hd]

/-- C4 witness: a resolved dispatch whose execute pushes one frame. -/
theorem C4_dispatch_restores_depth_witness :
    PushOnlyExec execPush
    ∧ (callVector execPush st0 ["foo"]).2 = CallOutcome.done
    ∧ (callVector execPush st0 ["foo"]).1.design.selection_stack.length
        = st0.design.selection_stack.length :=
  ⟨fun _ _ _ => ⟨[sel0], rfl⟩, by decide,
    C4_dispatch_restores_depth execPush st0 ["foo"]
      (fun _ _ _ => ⟨[sel0], rfl⟩) (by decide)⟩

def pdSome : PassDesc := { pass_name := "somecmd", short_help := "s", call_counter := 0 }

def stSome : KState := { reg := [("somecmd", pdSome)], design := design1 }

/-- C5: a `call_on_module` invocation that returns normally restores
`selected_active_module` and the selection stack (hence its depth) to
their pre-call values, for any inner command behaviour that only
pushes frames; and the state seen by the inner dispatch has the active
module set to the target module's name with a selection containing
exactly that module pushed on top of the stack. -/
theorem C5_call_on_module (exec : ExecBehavior) (st : KState) (m : RtlModule)
    (command : String) (hp : PushOnlyExec exec)
    (hd : (callStringState exec (callOnModuleEntry st m) command).2 = CallOutcome.done) :
    (callOnModule exec st m command).1.design.selected_active_module
        = st.design.selected_active_module
    ∧ (callOnModule exec st m command).1.design.selection_stack
        = st.design.selection_stack
    ∧ (callOnModuleEntry st m).design.selected_active_module = m.name
    ∧ (callOnModuleEntry st m).design.selection_stack
        = { full_selection := false, selected_modules := [m.name] }
          :: st.design.selection_stack := by
  unfold callStringState at hd
  have hstack := runTrace_done_stack exec hp (callTrace command) (callOnModuleEntry st m) hd
  refine ⟨?_, ?_, rfl, rfl⟩
  · simp only [callOnModule, callStringState]
    rw [hd]
  · simp only [callOnModule, callStringState]
    rw [hd]
    simp only
    rw [hstack]
    rfl

/-- C5 witness: `call_on_module` on a concrete design with a
frame-pushing command. -/
theorem C5_call_on_module_witness :
    PushOnlyExec execPush
    ∧ (callStringState execPush (callOnModuleEntry stSome ⟨"m1"⟩) "somecmd").2
        = CallOutcome.done
    ∧ (callOnModule execPush stSome ⟨"m1"⟩ "somecmd").1.design.selected_active_module
        = stSome.design.selected_active_module
    ∧ (callOnModule execPush stSome ⟨"m1"⟩ "somecmd").1.design.selection_stack
        = stSome.design.selection_stack
    ∧ (callOnModuleEntry stSome ⟨"m1"⟩).design.selection_stack
        = { full_selection := false, selected_modules := ["m1"] }
          :: stSome.design.selection_stack :=
  ⟨fun _ _ _ => ⟨[sel0], rfl⟩, by decide,
    (C5_call_on_module execPush stSome ⟨"m1"⟩ "somecmd"
      (fun _ _ _ => ⟨[sel0], rfl⟩) (by decide)).1,
    (C5_call_on_module execPush stSome ⟨"m1"⟩ "somecmd"
      (fun _ _ _ => ⟨[sel0], rfl⟩) (by decide)).2.1,
    (C5_call_on_module execPush stSome ⟨"m1"⟩ "somecmd"
      (fun _ _ _ => ⟨[sel0], rfl⟩) (by decide)).2.2.2⟩

/-- An `ExecBehavior` whose commands perform no top-level dispatches of
their own, i.e. never invoke `design->check()` themselves; under it
the dispatcher's own check invocation is the only possible change of
the instrumentation counter. -/
def CheckPreservingExec (exec : ExecBehavior) : Prop :=
  ∀ n a d, ((exec n a d).1).check_count = d.check_count

/-- C7 counterexample: `log_cmd_error` raises before `design->check()`
is reached, so a failed dispatch — unknown command name, or a command
error raised inside execute — does not invoke the consistency check:
the observed check counter is unchanged on both failure paths. -/
theorem C7_check_after_dispatch_counterexample :
    callVector execOk stEmpty ["foo"] = (stEmpty, CallOutcome.noSuchCommand)
    ∧ (callVector execOk stEmpty ["foo"]).1.design.check_count
        = stEmpty.design.check_count
    ∧ callVector execFail st0 ["foo"]
        = ({ reg := regBump st0.reg "foo", design := design0 }, CallOutcome.execError)
    ∧ (callVector execFail st0 ["foo"]).1.design.check_count
        = st0.design.check_count := by decide

/-- C7 amended: the consistency check is invoked after a top-level
dispatch through the vector form if and only if the dispatch resolved
its command name and its execute returned normally; a dispatch that
fails (unknown command, or command error inside execute) propagates
the error before the check. -/
theorem C7_check_after_dispatch_amended (exec : ExecBehavior) (st : KState) (args : Args)
    (hc : CheckPreservingExec exec) :
    (callVector exec st args).1.design.check_count
      = st.design.check_count
        + (if (callVector exec st args).2 = CallOutcome.done then 1 else 0) := by
  cases args with
  | nil => simp [callVector_nil]
  | cons a rest =>
    cases hh : headIsHash a with
    | true => rw [callVector_hash exec st a rest hh]; simp
    | false =>
      cases hl : assocLookup st.reg a with
      | none => rw [callVector_noSuch exec st a rest hh hl]; simp
      | some pd =>
        rcases he : exec a (a :: rest) st.design with ⟨d2, oc⟩
        have hcc : d2.check_count = st.design.check_count := by
          have hx := hc a (a :: rest) st.design
          rw [he] at hx; exact hx
        cases oc with
        | cmdError =>
          rw [callVector_execError exec st a rest pd d2 hh hl he]
          simp [hcc]
        | ok =>
          rw [callVector_ok exec st a rest pd d2 hh hl he]
          simp [hcc]

/-- C7 witness: a resolved, normally returning dispatch bumps the
check counter by exactly one. -/
theorem C7_check_after_dispatch_amended_witness :
    CheckPreservingExec execOk
    ∧ (callVector execOk st0 ["foo"]).1.design.check_count
        = st0.design.check_count
          + (if (callVector execOk st0 ["foo"]).2 = CallOutcome.done then 1 else 0) :=
  ⟨fun _ _ _ => rfl,
    C7_check_after_dispatch_amended execOk st0 ["foo"] (fun _ _ _ => rfl)⟩

theorem assocLookup_append_none {α : Type} (l1 l2 : List (String × α)) (n : String)
    (h : assocLookup l1 n = none) : assocLookup (l1 ++ l2) n = assocLookup l2 n := by
  induction l1 with
  | nil => simp
  | cons kv rest ih =>
    obtain ⟨k, w⟩ := kv
    by_cases hk : k = n
    · simp [assocLookup, hk] at h
    · simp [assocLookup, hk] at h ⊢
      exact ih h

theorem assocLookup_append_eq_none {α : Type} (l1 l2 : List (String × α)) (n : String) :
    assocLookup (l1 ++ l2) n = none ↔ assocLookup l1 n = none ∧ assocLookup l2 n = none := by
  induction l1 with
  | nil => simp [assocLookup]
  | cons kv rest ih =>
    obtain ⟨k, w⟩ := kv
    by_cases hk : k = n <;> simp [assocLookup, hk, ih]

/-- A successful queue drain appends exactly the queued descriptors,
keyed by their names, in queue order. -/
theorem initAux_some_eq (q : List PassDesc) : ∀ reg : Registry,
    (∀ d ∈ q, assocLookup reg d.pass_name = none) →
    (q.map (fun d => d.pass_name)).Nodup →
    initRegisterAux reg q = some (reg ++ q.map (fun d => (d.pass_name, d))) := by
  induction q with
  | nil => intro reg _ _; simp [initRegisterAux]
  | cons d q ih =>
    intro reg hnone hnd
    rw [List.map_cons, List.nodup_cons] at hnd
    have h1 : assocLookup reg d.pass_name = none := hnone d (by simp)
    have hrr : run_register reg d = some (reg ++ [(d.pass_name, d)]) := by
      simp [run_register, h1]
    have hnone2 : ∀ d2 ∈ q, assocLookup (reg ++ [(d.pass_name, d)]) d2.pass_name = none := by
      intro d2 hd2
      rw [assocLookup_append_none _ _ _ (hnone d2 (List.mem_cons_of_mem _ hd2))]
      have hne2 : d.pass_name ≠ d2.pass_name := by
        intro he
        exact hnd.1 (by rw [he]; exact List.mem_map_of_mem _ hd2)
      simp [assocLookup, hne2]
    have hres := ih (reg ++ [(d.pass_name, d)]) hnone2 hnd.2
    simp only [initRegisterAux]
    rw [hrr]
    show initRegisterAux (reg ++ [(d.pass_name, d)]) q = _
    rw [hres]
    simp

/-- A successful queue drain implies the queued names were pairwise
distinct (and absent from the starting registry): a duplicate would
have tripped the registration assertion. -/
theorem initAux_some_facts (q : List PassDesc) : ∀ reg reg2 : Registry,
    initRegisterAux reg q = some reg2 →
    (∀ d ∈ q, assocLookup reg d.pass_name = none)
    ∧ (q.map (fun d => d.pass_name)).Nodup := by
  induction q with
  | nil => intro reg reg2 _; exact ⟨by simp, by simp⟩
  | cons d q ih =>
    intro reg reg2 h
    simp only [initRegisterAux] at h
    cases hrr : run_register reg d with
    | none => rw [hrr] at h; cases h
    | some reg1 =>
      rw [hrr] at h
      obtain ⟨habs, hnd⟩ := ih reg1 reg2 h
      have hd1 : assocLookup reg d.pass_name = none := by
        cases hy : assocLookup reg d.pass_name with
        | none => rfl
        | some v => simp [run_register, hy] at hrr
      have hreg1 : reg1 = reg ++ [(d.pass_name, d)] := by
        simp [run_register, hd1] at hrr
        exact hrr.symm
      subst hreg1
      constructor
      · intro d2 hd2
        rcases List.mem_cons.mp hd2 with rfl | hd2q
        · exact hd1
        · exact ((assocLookup_append_eq_none _ _ _).mp (habs d2 hd2q)).1
      · rw [List.map_cons, List.nodup_cons]
        refine ⟨?_, hnd⟩
        intro hmem
        obtain ⟨d2, hd2q, hname⟩ := List.mem_map.mp hmem
        have h2 := ((assocLookup_append_eq_none _ _ _).mp (habs d2 hd2q)).2
        rw [hname] at h2
        simp [assocLookup] at h2

theorem assocLookup_map_pair_some (q : List PassDesc)
    (hnd : (q.map (fun d => d.pass_name)).Nodup) (d : PassDesc) (hd : d ∈ q) :
    assocLookup (q.map (fun d => (d.pass_name, d))) d.pass_name = some d := by
  induction q with
  | nil => cases hd
  | cons d0 q ih =>
    rw [List.map_cons, List.nodup_cons] at hnd
    rcases List.mem_cons.mp hd with rfl | hdq
    · simp [assocLookup]
    · have hne : d0.pass_name ≠ d.pass_name := by
        intro he
        exact hnd.1 (by rw [he]; exact List.mem_map_of_mem _ hdq)
      simp only [List.map_cons, assocLookup, if_neg hne]
      exact ih hnd.2 hdq

theorem assocLookup_map_pair_none (q : List PassDesc) (n : String)
    (hn : n ∉ q.map (fun d => d.pass_name)) :
    assocLookup (q.map (fun d => (d.pass_name, d))) n = none := by
  induction q with
  | nil => rfl
  | cons d0 q ih =>
    have h1 : d0.pass_name ≠ n := by
      intro he
      exact hn (by rw [← he]; simp)
    have h2 : n ∉ q.map (fun d => d.pass_name) := fun hx => hn (by simp [hx])
    simp [assocLookup, h1, ih h2]

theorem assocLookup_map_pair_mem (q : List PassDesc) (n : String) (pd : PassDesc)
    (h : assocLookup (q.map (fun d => (d.pass_name, d))) n = some pd) :
    pd ∈ q ∧ n = pd.pass_name := by
  induction q with
  | nil => simp [assocLookup] at h
  | cons d0 q ih =>
    by_cases hk : d0.pass_name = n
    · simp only [List.map_cons, assocLookup, if_pos hk] at h
      obtain rfl : d0 = pd := by injection h
      exact ⟨by simp, hk.symm⟩
    · simp only [List.map_cons, assocLookup, if_neg hk] at h
      obtain ⟨h1, h2⟩ := ih h
      exact ⟨List.mem_cons_of_mem _ h1, h2⟩

/-- C6: constructing descriptors with pairwise-distinct names and
draining the queue yields a registry holding exactly those descriptors
under their own names — lookup of any other name finds nothing, and an
unregistered name at dispatch is the user-facing `noSuchCommand`
outcome, not a fatal one; a duplicate name in the construction
sequence instead makes initialization trip the fatal registration
assertion (`none`). -/
theorem C6_registry (ds : List PassDesc) (reg : Registry) (dz : Design)
    (exec : ExecBehavior) (n : String) (rest : Args) :
    ((ds.map (fun d => d.pass_name)).Nodup →
      init_register ds = some (ds.reverse.map (fun d => (d.pass_name, d)))
      ∧ (∀ d ∈ ds,
          assocLookup (ds.reverse.map (fun d => (d.pass_name, d))) d.pass_name = some d)
      ∧ (∀ pd, assocLookup (ds.reverse.map (fun d => (d.pass_name, d))) n = some pd →
          pd ∈ ds ∧ n = pd.pass_name)
      ∧ (n ∉ ds.map (fun d => d.pass_name) →
          assocLookup (ds.reverse.map (fun d => (d.pass_name, d))) n = none))
    ∧ (¬ (ds.map (fun d => d.pass_name)).Nodup → init_register ds = none)
    ∧ (headIsHash n = false → assocLookup reg n = none →
        callVector exec { reg := reg, design := dz } (n :: rest)
          = ({ reg := reg, design := dz }, CallOutcome.noSuchCommand)) := by
  refine ⟨?_, ?_, ?_⟩
  · intro hnd
    have hrevnd : (ds.reverse.map (fun d => d.pass_name)).Nodup := by
      rw [List.map_reverse]
      exact List.nodup_reverse.mpr hnd
    refine ⟨?_, ?_, ?_, ?_⟩
    · unfold init_register
      rw [initAux_some_eq ds.reverse [] (by simp [assocLookup]) hrevnd]
      simp
    · intro d hd
      exact assocLookup_map_pair_some ds.reverse hrevnd d (List.mem_reverse.mpr hd)
    · intro pd hpd
      obtain ⟨h1, h2⟩ := assocLookup_map_pair_mem ds.reverse n pd hpd
      exact ⟨List.mem_reverse.mp h1, h2⟩
    · intro hn
      refine assocLookup_map_pair_none ds.reverse n ?_
      intro hx
      refine hn ?_
      rw [List.map_reverse] at hx
      exact List.mem_reverse.mp hx
  · intro hnnd
    cases h : init_register ds with
    | none => rfl
    | some r =>
      unfold init_register at h
      have := (initAux_some_facts ds.reverse [] r h).2
      rw [List.map_reverse] at this
      exact absurd (List.nodup_reverse.mp this) hnnd
  · intro hh hl
    exact callVector_noSuch exec { reg := reg, design := dz } n rest hh hl

/-- C6 witness: two distinct registrations, a duplicate registration,
and a dispatch of an unregistered name. -/
theorem C6_registry_witness :
    init_register [pdFoo, pdBar]
        = some (([pdFoo, pdBar]).reverse.map (fun d => (d.pass_name, d)))
    ∧ assocLookup (([pdFoo, pdBar]).reverse.map (fun d => (d.pass_name, d)))
        pdFoo.pass_name = some pdFoo
    ∧ assocLookup (([pdFoo, pdBar]).reverse.map (fun d => (d.pass_name, d))) "baz" = none
    ∧ init_register [pdFoo, pdFooDup] = none
    ∧ callVector execOk { reg := [], design := design0 } ["baz"]
        = ({ reg := [], design := design0 }, CallOutcome.noSuchCommand) :=
  ⟨((C6_registry [pdFoo, pdBar] [] design0 execOk "baz" []).1 (by decide)).1,
    ((C6_registry [pdFoo, pdBar] [] design0 execOk "baz" []).1 (by decide)).2.1 pdFoo
      (by decide),
    ((C6_registry [pdFoo, pdBar] [] design0 execOk "baz" []).1 (by decide)).2.2.2
      (by decide),
    (C6_registry [pdFoo, pdFooDup] [] design0 execOk "baz" []).2.1 (by decide),
    (C6_registry [pdFoo, pdBar] [] design0 execOk "baz" []).2.2 (by decide) (by decide)⟩

/-- C8: a Frontend named `N` without a leading `=` is registered in
the shared dispatch namespace under `"read_" + N` and in the
frontend-format namespace under `N`; with a leading `=`, under `N`
with the `=` removed in both; Backends behave identically with the
`"write_"` prefixed name and the backend-format namespace. -/
theorem C8_frontend_backend_naming (N h : String) :
    (nameStartsEq N = false →
      (mkFrontend N h).pass_name = "read_" ++ N
      ∧ (mkFrontend N h).frontend_name = N
      ∧ (mkBackend N h).pass_name = "write_" ++ N
      ∧ (mkBackend N h).backend_name = N)
    ∧ (nameStartsEq N = true →
      (mkFrontend N h).pass_name = dropFirst N
      ∧ (mkFrontend N h).frontend_name = dropFirst N
      ∧ (mkBackend N h).pass_name = dropFirst N
      ∧ (mkBackend N h).backend_name = dropFirst N)
    ∧ frontendRunRegister (mkFrontend N h) [] []
        = some ([((mkFrontend N h).pass_name, mkFrontend N h)],
                [((mkFrontend N h).frontend_name, mkFrontend N h)])
    ∧ backendRunRegister (mkBackend N h) [] []
        = some ([((mkBackend N h).pass_name, mkBackend N h)],
                [((mkBackend N h).backend_name, mkBackend N h)]) := by
  refine ⟨?_, ?_, ?_, ?_⟩
  · intro hn
    simp [mkFrontend, mkBackend, hn]
  · intro hn
    simp [mkFrontend, mkBackend, hn]
  · simp [frontendRunRegister, assocLookup]
  · simp [backendRunRegister, assocLookup]

/-- C8 witness: the derived names at `"verilog"` and `"=proc"`, and
the dual registrations at `"verilog"`. -/
theorem C8_frontend_backend_naming_witness :
    ((mkFrontend "verilog" "h").pass_name = "read_" ++ "verilog"
      ∧ (mkFrontend "verilog" "h").frontend_name = "verilog"
      ∧ (mkBackend "verilog" "h").pass_name = "write_" ++ "verilog"
      ∧ (mkBackend "verilog" "h").backend_name = "verilog")
    ∧ ((mkFrontend "=proc" "h").pass_name = dropFirst "=proc"
      ∧ (mkFrontend "=proc" "h").frontend_name = dropFirst "=proc"
      ∧ (mkBackend "=proc" "h").pass_name = dropFirst "=proc"
      ∧ (mkBackend "=proc" "h").backend_name = dropFirst "=proc")
    ∧ frontendRunRegister (mkFrontend "verilog" "h") [] []
        = some ([((mkFrontend "verilog" "h").pass_name, mkFrontend "verilog" "h")],
                [((mkFrontend "verilog" "h").frontend_name, mkFrontend "verilog" "h")]) :=
  ⟨(C8_frontend_backend_naming "verilog" "h").1 (by decide),
    (C8_frontend_backend_naming "=proc" "h").2.1 (by decide),
    (C8_frontend_backend_naming "verilog" "h").2.2.1⟩

theorem assocLookup_regBump (reg : Registry) (n : String) (pd : PassDesc)
    (h : assocLookup reg n = some pd) :
    assocLookup (regBump reg n) n = some { pd with call_counter := pd.call_counter + 1 } := by
  induction reg with
  | nil => simp [assocLookup] at h
  | cons kv rest ih =>
    obtain ⟨k, d⟩ := kv
    by_cases hk : k = n
    · subst hk
      simp only [assocLookup, if_pos rfl] at h
      obtain rfl : d = pd := by injection h
      simp [regBump, assocLookup]
    · simp only [assocLookup, if_neg hk] at h
      simp only [regBump, if_neg hk, assocLookup, if_neg hk]
      exact ih h

/-- The driver loop's counter increase equals one per iteration: with
`k` continuation rounds it runs `k + 1` iterations. -/
theorem frontendExecuteCounter_rounds (step : Args → Args) :
    ∀ (fuel k c : Nat) (args : Args), contRounds step fuel args = some k →
    frontendExecuteCounter step fuel c args = some (c + k + 1) := by
  intro fuel
  induction fuel with
  | zero => intro k c args h; simp [contRounds] at h
  | succ fuel ih =>
    intro k c args h
    by_cases hne : (step args).isEmpty = true
    · simp [contRounds, hne] at h
      simp [frontendExecuteCounter, hne]
      omega
    · simp only [contRounds] at h
      rw [if_neg hne] at h
      obtain ⟨k0, hk0, hk⟩ := Option.map_eq_some'.mp h
      simp only [frontendExecuteCounter]
      rw [if_neg hne, ih k0 (c + 1) (step args) hk0]
      simp only [Option.some.injEq]
      omega

/-- C9: the dispatcher increments the descriptor's counter before
running execute, so a dispatch whose execute raises a command error
still counts; and a frontend dispatched once through the vector-form
`Pass::call` whose driver loop performs `k` continuation rounds ends
with its counter increased by `k + 2`. -/
theorem C9_call_counter (exec : ExecBehavior) (st : KState) (name : String) (rest : Args)
    (pd : PassDesc) (d2 : Design) (step : Args → Args) (fuel k counter : Nat) (args : Args)
    (hh : headIsHash name = false)
    (hl : assocLookup st.reg name = some pd)
    (he : exec name (name :: rest) st.design = (d2, ExecOutcome.cmdError))
    (hk : contRounds step fuel args = some k) :
    ((callVector exec st (name :: rest)).2 = CallOutcome.execError
      ∧ assocLookup (callVector exec st (name :: rest)).1.reg name
          = some { pd with call_counter := pd.call_counter + 1 })
    ∧ dispatchFrontendCounter step fuel counter args = some (counter + k + 2) := by
  refine ⟨⟨?_, ?_⟩, ?_⟩
  · rw [callVector_execError exec st name rest pd d2 hh hl he]
  · rw [callVector_execError exec st name rest pd d2 hh hl he]
    exact assocLookup_regBump st.reg name pd hl
  · unfold dispatchFrontendCounter
    rw [frontendExecuteCounter_rounds step fuel k (counter + 1) args hk]
    simp only [Option.some.injEq]
    omega

/-- A continuation step used by the C9 witness: the first invocation
consumes the first filename and leaves the spliced remainder as the
pending continuation; the second leaves none. -/
def stepW : Args → Args := fun a =>
  if a = ["read_f", "x", "y"] then ["read_f", "y"] else []

/-- C9 witness: a failing dispatch still bumps the counter, and a
frontend driver run with one continuation round ends `+ 3` in total
(one from the dispatcher, two from the driver loop). -/
theorem C9_call_counter_witness :
    headIsHash "foo" = false
    ∧ assocLookup st0.reg "foo" = some pdFoo
    ∧ execFail "foo" ["foo"] st0.design = (design0, ExecOutcome.cmdError)
    ∧ contRounds stepW 5 ["read_f", "x", "y"] = some 1
    ∧ ((callVector execFail st0 ["foo"]).2 = CallOutcome.execError
      ∧ assocLookup (callVector execFail st0 ["foo"]).1.reg "foo"
          = some { pdFoo with call_counter := pdFoo.call_counter + 1 })
    ∧ dispatchFrontendCounter stepW 5 0 ["read_f", "x", "y"] = some (0 + 1 + 2) :=
  ⟨by decide, by decide, rfl, by decide,
    (C9_call_counter execFail st0 "foo" [] pdFoo design0 stepW 5 1 0 ["read_f", "x", "y"]
      (by decide) (by decide) rfl (by decide)).1,
    (C9_call_counter execFail st0 "foo" [] pdFoo design0 stepW 5 1 0 ["read_f", "x", "y"]
      (by decide) (by decide) rfl (by decide)).2⟩

/-- The destination loop records `"<stdout>"` as the filename whenever
it resolves the stream to standard output. -/
theorem backendLoop_stdout_filename (openable : String → Bool) :
    ∀ (l : List String) (f : Option OutStream) (fn : String) (s : OutStream) (fn2 : String),
    (f = some OutStream.stdoutS → fn = "<stdout>") →
    backendExtraArgsLoop openable l f fn = BackendResolve.ok s fn2 →
    s.isStdout = true → fn2 = "<stdout>" := by
  intro l
  induction l with
  | nil =>
    intro f fn s fn2 hinv h hs
    cases f with
    | none =>
      simp only [backendExtraArgsLoop] at h
      injection h with h1 h2
      rw [← h2]
    | some s0 =>
      simp only [backendExtraArgsLoop] at h
      injection h with h1 h2
      rw [← h2]
      cases s0 with
      | stdoutS => exact hinv rfl
      | fileS p =>
        rw [← h1] at hs
        simp [OutStream.isStdout] at hs
  | cons arg rest ih =>
    intro f fn s fn2 hinv h hs
    simp only [backendExtraArgsLoop] at h
    by_cases h1 : (startsDash arg && decide (arg ≠ "-")) = true
    · rw [if_pos h1] at h; cases h
    · rw [if_neg h1] at h
      by_cases h2 : f.isSome = true
      · rw [if_pos h2] at h; cases h
      · rw [if_neg h2] at h
        by_cases h3 : arg = "-"
        · rw [if_pos h3] at h
          exact ih (some .stdoutS) "<stdout>" s fn2 (fun _ => rfl) h hs
        · rw [if_neg h3] at h
          by_cases h4 : openable arg = true
          · rw [if_pos h4] at h
            exact ih (some (.fileS arg)) arg s fn2
              (fun hx => absurd hx (by simp)) h hs
          · rw [if_neg h4] at h; cases h

/-- C10: through `Backend::execute`, a destination resolved from `-`
or from an absent destination token yields standard output recorded as
`"<stdout>"` and is never closed, a stream opened from a real path is
always closed, and in general the stream is closed iff it is not
standard output (with stdout always recorded as `"<stdout>"`). -/
theorem C10_backend_close (openable : String → Bool) (destArgs : List String)
    (p : String) (s : OutStream) (fn : String) (closed : Bool)
    (hp1 : startsDash p = false) (hp2 : openable p = true)
    (hres : backendExecuteCloses openable destArgs = some (s, fn, closed)) :
    backendExecuteCloses openable [] = some (OutStream.stdoutS, "<stdout>", false)
    ∧ backendExecuteCloses openable ["-"] = some (OutStream.stdoutS, "<stdout>", false)
    ∧ backendExecuteCloses openable [p] = some (OutStream.fileS p, p, true)
    ∧ closed = !s.isStdout
    ∧ (s.isStdout = true → fn = "<stdout>") := by
  have key : backendExtraArgsLoop openable destArgs none "" = BackendResolve.ok s fn
      ∧ closed = !s.isStdout := by
    unfold backendExecuteCloses at hres
    cases hbr : backendExtraArgsLoop openable destArgs none "" with
    | ok s2 fn2 =>
      rw [hbr] at hres
      simp only [Option.some.injEq, Prod.mk.injEq] at hres
      obtain ⟨rfl, rfl, hcl⟩ := hres
      exact ⟨rfl, hcl.symm⟩
    | err => rw [hbr] at hres; cases hres
  refine ⟨rfl, rfl, ?_, key.2, ?_⟩
  · have hne : p ≠ "-" := by
      intro hx
      rw [hx] at hp1
      cases hp1
    simp [backendExecuteCloses, backendExtraArgsLoop, hp1, hne, hp2, OutStream.isStdout]
  · intro hs
    exact backendLoop_stdout_filename openable destArgs none "" s fn
      (fun hx => Option.noConfusion hx) key.1 hs

/-- Every path is openable: the `fopen` success assumption of the C10
witness. -/
def openAll : String → Bool := fun _ => true

/-- C10 witness: a real path destination is opened, recorded under its
own name and closed; stdout destinations are not. -/
theorem C10_backend_close_witness :
    startsDash "out.v" = false
    ∧ openAll "out.v" = true
    ∧ backendExecuteCloses openAll ["out.v"]
        = some (OutStream.fileS "out.v", "out.v", true)
    ∧ backendExecuteCloses openAll [] = some (OutStream.stdoutS, "<stdout>", false)
    ∧ backendExecuteCloses openAll ["-"] = some (OutStream.stdoutS, "<stdout>", false)
    ∧ (true : Bool) = !(OutStream.fileS "out.v").isStdout :=
  ⟨by decide, rfl, by decide,
    (C10_backend_close openAll ["out.v"] "out.v" (OutStream.fileS "out.v") "out.v" true
      (by decide) rfl (by decide)).1,
    (C10_backend_close openAll ["out.v"] "out.v" (OutStream.fileS "out.v") "out.v" true
      (by decide) rfl (by decide)).2.1,
    (C10_backend_close openAll ["out.v"] "out.v" (OutStream.fileS "out.v") "out.v" true
      (by decide) rfl (by decide)).2.2.2.1⟩
